import Mathlib

/-!
Verification of the BOM CSV merge tool (`merge_bom.py`).

This file gives a shallow embedding of the program in Lean 4 and proves
properties of it.  Python floats are modelled as exact rationals (`ℚ`), so
float arithmetic is exact arithmetic here; the float literal `1e-9` becomes
the rational `1 / 1000000000`.  Strings are Lean `String`s, with the `data`
field (a `List Char`) used for character-level reasoning.
-/

namespace MergeBom

section
/- Batteries marks the core rational operations irreducible, which blocks
`decide`-style evaluation on concrete inputs; restore default reducibility
locally for this development. -/
attribute [local semireducible] Rat.mul Rat.inv Rat.add Rat.sub

/-! ## String helpers -/

/-- ASCII whitespace characters stripped by Python's `str.strip()`
(space, tab, LF, CR, vertical tab, form feed).  Non-ASCII whitespace is not
modelled; no claim involves it. -/
def isSpace (c : Char) : Bool :=
  c = ' ' || c = '\t' || c = '\n' || c = '\r' || c = '\x0b' || c = '\x0c'

/-- Drop leading and trailing whitespace from a character list. -/
def stripChars (l : List Char) : List Char :=
  ((l.dropWhile isSpace).reverse.dropWhile isSpace).reverse

/-- Models Python `s.strip()`. -/
def strip (s : String) : String := ⟨stripChars s.data⟩

/-- Models Python `s.replace(',', '')`. -/
def removeCommas (s : String) : String := ⟨s.data.filter (fun c => c ≠ ',')⟩

/-! ## Decimal parsing: a model of CPython `float(str)` restricted to finite
decimal literals (optional sign, digits with optional fraction part, optional
exponent).  `float()` itself strips surrounding whitespace, which is modelled;
`inf`/`nan` spellings and digit-group underscores are not modelled, as no
behaviour claimed about the program involves them. -/

/-- Numeric value of a decimal digit character. -/
def digitVal (c : Char) : ℕ := c.toNat - 48

/-- Value of a big-endian digit string. -/
def natOfDigits (l : List Char) : ℕ := l.foldl (fun a c => 10 * a + digitVal c) 0

/-- Split a character list at the first occurrence of `c`; the second
component is `none` when `c` does not occur. -/
def splitAtChar (c : Char) : List Char → List Char × Option (List Char)
  | [] => ([], none)
  | x :: xs =>
    if x = c then ([], some xs)
    else
      let r := splitAtChar c xs
      (x :: r.1, r.2)

/-- Split at the first exponent marker (`e` or `E`). -/
def splitExp : List Char → List Char × Option (List Char)
  | [] => ([], none)
  | x :: xs =>
    if x = 'e' || x = 'E' then ([], some xs)
    else
      let r := splitExp xs
      (x :: r.1, r.2)

/-- Consume an optional leading sign, returning the sign as `±1`. -/
def parseSign : List Char → ℤ × List Char
  | '+' :: xs => (1, xs)
  | '-' :: xs => (-1, xs)
  | xs => (1, xs)

/-- Parse an unsigned mantissa `digits[.digits]` where at least one digit is
present on one side of the point. -/
def parseMantissa (l : List Char) : Option ℚ :=
  let p := splitAtChar '.' l
  let ip := p.1
  let fp := p.2.getD []
  if ip.all Char.isDigit && fp.all Char.isDigit && (!ip.isEmpty || !fp.isEmpty) then
    some (((natOfDigits ip : ℚ) * 10 ^ fp.length + (natOfDigits fp : ℚ)) / 10 ^ fp.length)
  else none

/-- Parse a signed exponent (nonempty digit string). -/
def parseExpPart (l : List Char) : Option ℤ :=
  let p := parseSign l
  if !p.2.isEmpty && p.2.all Char.isDigit then some (p.1 * natOfDigits p.2) else none

/-- Parse a signed decimal literal with optional exponent. -/
def pyFloatCore (l : List Char) : Option ℚ :=
  let s := parseSign l
  let e := splitExp s.2
  match parseMantissa e.1 with
  | none => none
  | some m =>
    match e.2 with
    | none => some ((s.1 : ℚ) * m)
    | some ex =>
      match parseExpPart ex with
      | none => none
      | some k => some ((s.1 : ℚ) * m * 10 ^ k)

/-- Models `float(s)` (which strips surrounding whitespace itself),
returning `none` where Python raises `ValueError`. -/
def pyFloat (s : String) : Option ℚ := pyFloatCore (stripChars s.data)

/-! ## `BOMReader._parse_qty`

The merge loop only ever passes `row.get('Qty', '')`, which after
`filter_row` is either `None` or a string, so the `isinstance(qty_raw,
(int, float))` branch of the source is unreachable and the argument is
modelled as `Option String`. -/

/-- Embeds `BOMReader._parse_qty`: `None → 0.0`; otherwise strip
whitespace, return `0.0` on the empty string, remove every comma, and parse,
with parse failure yielding `0.0`. -/
def parse_qty (q : Option String) : ℚ :=
  match q with
  | none => 0
  | some raw =>
    let s := strip raw
    if s = "" then 0
    else (pyFloat (removeCommas s)).getD 0

/-! ## Row data model

`csv.DictReader` yields one dict per data row; a row shorter than the header
stores `None` (`restval`) for the missing columns, so cell values are
`Option String`.  A raw row is the association list header-name/value in
column order; `BOMReader.filter_row` reduces it to the four allowed fields. -/

/-- A parsed row after `BOMReader.filter_row`: exactly the four allowed
fields, each either a string or `None`. -/
structure RawRow where
  description : Option String
  qty : Option String
  value : Option String
  lcsc : Option String
deriving DecidableEq

/-- Embeds `BOMReader.filter_row`: keep only the allowed keys, an absent key
yielding `''` and a present-but-`None` value staying `None`
(`row.get(k, '')`). -/
def filter_row (row : List (String × Option String)) : RawRow :=
  ⟨(row.lookup "Description").getD (some ""), (row.lookup "Qty").getD (some ""),
   (row.lookup "Value").getD (some ""), (row.lookup "LCSC").getD (some "")⟩

/-- Embeds `BOMReader.read_csv`: the parsed rows on success, and `[]` when
opening/decoding the file raised (`except Exception: return []`).  The
filesystem interaction is abstracted as the `Except` argument. -/
def read_csv (res : Except String (List (List (String × Option String)))) :
    List (List (String × Option String)) :=
  match res with
  | .ok rows => rows
  | .error _ => []

/-- Embeds `BOMReader.read_all`: map each file (basename paired with its
read outcome) to its filtered rows. -/
def read_all (files : List (String × Except String (List (List (String × Option String))))) :
    List (String × List RawRow) :=
  files.map (fun p => (p.1, (read_csv p.2).map filter_row))

/-! ## Aggregation (`BOMReader.merge_and_write`, lines 86–111)

The Python dict `merged` is modelled as an association list in insertion
order, which is exactly the iteration order of a Python dict. -/

/-- One element of `entry['Files']`: `{'file': …, 'qty': …, 'desc': …,
'value': …}`. -/
structure Contribution where
  file : String
  qty : ℚ
  desc : String
  val : String
deriving DecidableEq

/-- One value of the `merged` dict. -/
structure MergeEntry where
  qty : ℚ
  descriptions : List String
  values : List String
  files : List Contribution
deriving DecidableEq

/-- The fresh entry handed to `merged.setdefault`. -/
def emptyEntry : MergeEntry := ⟨0, [], [], []⟩

/-- Models Python `x or ''` on an optional string. -/
def getOrEmpty (o : Option String) : String := o.getD ""

/-- The merge key of a row: `(row.get('LCSC') or '').strip()`, with the
no-op normalisation of the empty string kept from the source. -/
def keyOf (r : RawRow) : String :=
  let lcsc := strip (getOrEmpty r.lcsc)
  if lcsc = "" then "" else lcsc

/-- The normalised quantity of a row: `self._parse_qty(row.get('Qty', ''))`. -/
def qtyOf (r : RawRow) : ℚ := parse_qty r.qty

/-- The trimmed description of a row: `(row.get('Description') or '').strip()`. -/
def descOf (r : RawRow) : String := strip (getOrEmpty r.description)

/-- The trimmed value of a row: `(row.get('Value') or '').strip()`. -/
def valOf (r : RawRow) : String := strip (getOrEmpty r.value)

/-- `if s and s not in l: l.append(s)` — ordered-set insertion used for both
`Descriptions` and `Values`. -/
def osInsert (s : String) (l : List String) : List String :=
  if s ≠ "" ∧ s ∉ l then l ++ [s] else l

/-- The per-row mutation of a merge entry (lines 105–111 of the source). -/
def addTo (file : String) (q : ℚ) (d v : String) (e : MergeEntry) : MergeEntry :=
  { qty := e.qty + q
    descriptions := osInsert d e.descriptions
    values := osInsert v e.values
    files := e.files ++ [⟨file, q, d, v⟩] }

/-- `merged.setdefault(key, fresh)` followed by mutating the entry:
update the binding of `k` in place, appending a fresh binding at the end
when the key is absent (Python dict insertion order). -/
def updateAssoc (m : List (String × MergeEntry)) (k : String)
    (f : MergeEntry → MergeEntry) : List (String × MergeEntry) :=
  match m with
  | [] => [(k, f emptyEntry)]
  | p :: rest => if p.1 = k then (p.1, f p.2) :: rest else p :: updateAssoc rest k f

/-- Processing a single `(filename, row)` pair in the merge loop. -/
def mergeStep (m : List (String × MergeEntry)) (p : String × RawRow) :
    List (String × MergeEntry) :=
  updateAssoc m (keyOf p.2) (addTo p.1 (qtyOf p.2) (descOf p.2) (valOf p.2))

/-- The whole aggregation loop over the flattened `(filename, row)` stream. -/
def mergeRows (rows : List (String × RawRow)) : List (String × MergeEntry) :=
  rows.foldl mergeStep []

/-- Flattening `all_data` into the `(filename, row)` stream in
file-then-row order. -/
def allRows (data : List (String × List RawRow)) : List (String × RawRow) :=
  (data.map (fun p => p.2.map (fun r => (p.1, r)))).flatten

/-- Lookup in the merged association list (Python `merged[key]`). -/
def lookupE (m : List (String × MergeEntry)) (k : String) : Option MergeEntry :=
  match m with
  | [] => none
  | p :: rest => if p.1 = k then some p.2 else lookupE rest k

/-! ## Output formatting (`merge_and_write`, lines 114–133) -/

/-- Python `int(x)` on a rational: truncation toward zero. -/
def qtrunc (q : ℚ) : ℤ :=
  if q < 0 then -((q.num.natAbs / q.den : ℕ) : ℤ) else ((q.num.natAbs / q.den : ℕ) : ℤ)

/-- Decimal digit string of a natural number (Python `str(n)` for `n ≥ 0`). -/
def natToStr (n : ℕ) : String := ⟨Nat.toDigits 10 n⟩

/-- Python `str(int)`. -/
def intToStr (i : ℤ) : String := if i < 0 then "-" ++ natToStr i.natAbs else natToStr i.natAbs

/-- Fuel-driven count of how often `p` divides `n`. -/
def pvalAux (p : ℕ) : ℕ → ℕ → ℕ
  | _, 0 => 0
  | n, fuel + 1 => if 2 ≤ p ∧ n ≠ 0 ∧ p ∣ n then pvalAux p (n / p) fuel + 1 else 0

/-- Multiplicity of the prime `p` in `n` (for `2 ≤ p`, `0 < n`). -/
def pval (p n : ℕ) : ℕ := pvalAux p n n

/-- A run of `n` zero characters. -/
def zeros (n : ℕ) : String := ⟨List.replicate n '0'⟩

/-- Models Python `str(float)` on the exact rational value, for floats whose
shortest repr is a plain decimal (integral values print with a trailing
`.0`, e.g. `str(5.0) == '5.0'`); exponent-notation reprs do not arise in any
claim.  For a rational `n / (2^a·5^b)` the decimal expansion terminates
after `max a b` digits. -/
def pyStr (q : ℚ) : String :=
  let sign := if q < 0 then "-" else ""
  let k := max (pval 2 q.den) (pval 5 q.den)
  let m := q.num.natAbs * 10 ^ k / q.den
  if k = 0 then sign ++ natToStr m ++ ".0"
  else
    let fs := natToStr (m % 10 ^ k)
    sign ++ natToStr (m / 10 ^ k) ++ "." ++ zeros (k - fs.length) ++ fs

/-- The `Qty` cell text (lines 124–127): `str(int(total))` when the total is
within `1e-9` of its own truncation toward zero, else `str(total)`. -/
def fmtQty (q : ℚ) : String :=
  if |q - (qtrunc q : ℚ)| < 1 / 1000000000 then intToStr (qtrunc q) else pyStr q

/-- One data row of `merged.csv` (header `Description,Qty,Value,LCSC`). -/
structure OutputRow where
  description : String
  qtyText : String
  value : String
  lcsc : String
deriving DecidableEq

/-- The row written for one merge entry: representative description/value
are `data['Descriptions'][0] if data['Descriptions'] else ''` etc. -/
def outputRow (k : String) (e : MergeEntry) : OutputRow :=
  ⟨e.descriptions.headD "", fmtQty e.qty, e.values.headD "", k⟩

/-- All data rows of the output file, in `merged` iteration order. -/
def outputRows (m : List (String × MergeEntry)) : List OutputRow :=
  m.map fun p => outputRow p.1 p.2

/-! ## Collision diagnostics (`_short` and lines 147–159) -/

/-- Embeds `_short`: identity up to `maxLen` characters, otherwise the first
`maxLen - 2` characters with `'..'` appended (plain prefix cut when
`maxLen ≤ 2`).  The `str(s)` coercion is applied by callers (`pyStr` for
floats). -/
def pyShort (s : String) (maxLen : ℕ) : String :=
  if s.data.length ≤ maxLen then s
  else if maxLen ≤ 2 then ⟨s.data.take maxLen⟩
  else ⟨s.data.take (maxLen - 2) ++ ['.', '.']⟩

/-- Python `sep.join(l)`. -/
def strJoin (sep : String) : List String → String
  | [] => ""
  | [x] => x
  | x :: y :: xs => x ++ sep ++ strJoin sep (y :: xs)

/-- A single quote character (used inside the collision log format). -/
def sq : String := ⟨['\x27']⟩

/-- The per-contributor fragment of a collision log line:
`f"{_short(c['file'])}(qty={_short(c['qty'])},desc='{_short(c['desc'])}',val='{_short(c['value'])}')"`. -/
def contribStr (c : Contribution) : String :=
  pyShort c.file 10 ++ "(qty=" ++ pyShort (pyStr c.qty) 10 ++ ",desc=" ++ sq ++
    pyShort c.desc 10 ++ sq ++ ",val=" ++ sq ++ pyShort c.val 10 ++ sq ++ ")"

/-- The message of the collision log call for one merge entry (line 159;
the `if data['Descriptions'] else ''` guards are no-ops since joining the
empty list already gives `''`). -/
def logLine (k : String) (e : MergeEntry) : String :=
  "Merged LCSC=" ++ sq ++ pyShort k 10 ++ sq ++ " total_qty=" ++ pyShort (pyStr e.qty) 10 ++
    " Values=[" ++ strJoin "; " (e.values.map (fun v => pyShort v 10)) ++
    "] Descriptions=[" ++ strJoin "; " (e.descriptions.map (fun d => pyShort d 10)) ++
    "] Contributors=[" ++ strJoin ", " (e.files.map contribStr) ++ "]"

/-- The diagnostic messages logged after a successful write, in `merged`
iteration order: entries with at most one contributing row are skipped
(lines 147–159). -/
def logLines (m : List (String × MergeEntry)) : List String :=
  m.filterMap (fun p => if p.2.files.length ≤ 1 then none else some (logLine p.1 p.2))

/-- The observable outcome of `BOMReader.merge_and_write` on the
successful-write path: the data rows of `merged.csv` and the collision log
messages.  On this path those log messages are the only log output. -/
def merge_and_write
    (files : List (String × Except String (List (List (String × Option String))))) :
    List OutputRow × List String :=
  let merged := mergeRows (allRows (read_all files))
  (outputRows merged, logLines merged)

/-- Substring containment on strings (character-level). -/
def sContains (big small : String) : Prop := ∃ a b, big.data = a ++ small.data ++ b

/-! ## Specification-side definitions and proof helpers -/

/-- The contribution record generated by one `(filename, row)` pair. -/
def contribOf (p : String × RawRow) : Contribution :=
  ⟨p.1, qtyOf p.2, descOf p.2, valOf p.2⟩

/-- Folding one `(filename, row)` pair into an entry (the body of
`mergeStep` at a fixed key). -/
def stepEntry (e : MergeEntry) (p : String × RawRow) : MergeEntry :=
  addTo p.1 (qtyOf p.2) (descOf p.2) (valOf p.2) e

/-- Folding a stream of `(filename, row)` pairs into an entry. -/
def addAll (e : MergeEntry) (l : List (String × RawRow)) : MergeEntry :=
  l.foldl stepEntry e

/-- First-occurrence deduplication relative to a set of already-seen keys. -/
def firstDedupExcl (seen : List String) : List String → List String
  | [] => []
  | x :: xs =>
    if x ∈ seen then firstDedupExcl seen xs else x :: firstDedupExcl (x :: seen) xs

/-- The distinct elements of a list in order of first occurrence (the key
order of a Python dict filled by `setdefault`). -/
def firstDedup (l : List String) : List String := firstDedupExcl [] l

/-- The entry obtained for one key from an optional pre-existing entry and
the stream of rows mapping to that key. -/
def mergedAt (m0 : Option MergeEntry) (l : List (String × RawRow)) : Option MergeEntry :=
  match m0 with
  | some e => some (addAll e l)
  | none => if l = [] then none else some (addAll emptyEntry l)

/-- Sum of the running totals over all merge entries. -/
def totalOf (m : List (String × MergeEntry)) : ℚ := (m.map (fun p => p.2.qty)).sum

/-- The claimed per-entry invariant: the running total is the sum of the
contributors' quantities, and the description/value lists hold distinct
non-empty strings. -/
def EntryInv (e : MergeEntry) : Prop :=
  e.qty = (e.files.map (fun c => c.qty)).sum ∧
    e.descriptions.Nodup ∧ "" ∉ e.descriptions ∧ e.values.Nodup ∧ "" ∉ e.values

/-- A row with every `None` field replaced by the empty string; degenerate
rows are claimed to aggregate exactly like their filled counterparts. -/
def fillRow (r : RawRow) : RawRow :=
  ⟨some (getOrEmpty r.description), some (getOrEmpty r.qty),
   some (getOrEmpty r.value), some (getOrEmpty r.lcsc)⟩

/-- The spec's end-to-end example: `a.csv` and `b.csv` each contribute one
row for part `C1`. -/
def exRows : List (String × RawRow) :=
  [("a.csv", ⟨some "Resistor", some "2", some "10k", some "C1"⟩),
   ("b.csv", ⟨some "Resistor", some "3", some "10k", some "C1"⟩)]

/-- The merge entry produced by `exRows`. -/
def exEntry : MergeEntry :=
  ⟨5, ["Resistor"], ["10k"],
   [⟨"a.csv", 2, "Resistor", "10k"⟩, ⟨"b.csv", 3, "Resistor", "10k"⟩]⟩

/-- One row whose quantity is within `1e-9` of an integer but not integral. -/
def ce1Rows : List (String × RawRow) :=
  [("a.csv", ⟨some "part", some "1.0000000001", some "", some "C1"⟩)]

/-- Two colliding rows contributed by a file whose name is longer than the
log truncation limit (and whose tail contains a character, `Q`, appearing
nowhere else in the log line). -/
def ce6Rows : List (String × RawRow) :=
  [("abcdefghQRS", ⟨some "Res", some "2", some "10k", some "C1"⟩),
   ("abcdefghQRS", ⟨some "Res", some "3", some "10k", some "C1"⟩)]

/-! ## Lemmas about the merge map -/

theorem updateAssoc_lookup_self (m : List (String × MergeEntry)) (k : String)
    (f : MergeEntry → MergeEntry) :
    lookupE (updateAssoc m k f) k = some (f ((lookupE m k).getD emptyEntry)) := by
  induction m with
  | nil => simp [updateAssoc, lookupE]
  | cons p rest ih =>
    by_cases h : p.1 = k
    · simp [updateAssoc, lookupE, h]
    · simp [updateAssoc, lookupE, h, ih]

theorem updateAssoc_lookup_other (m : List (String × MergeEntry)) (k k' : String)
    (f : MergeEntry → MergeEntry) (h : k' ≠ k) :
    lookupE (updateAssoc m k f) k' = lookupE m k' := by
  have hkk : ¬ (k = k') := fun hh => h hh.symm
  induction m with
  | nil => simp [updateAssoc, lookupE, hkk]
  | cons p rest ih =>
    by_cases hp : p.1 = k
    · subst hp
      simp [updateAssoc, lookupE, hkk]
    · simp [updateAssoc, lookupE, hp, ih]

theorem lookupE_mergeStep_key (m : List (String × MergeEntry)) (p : String × RawRow) :
    lookupE (mergeStep m p) (keyOf p.2) =
      some (stepEntry ((lookupE m (keyOf p.2)).getD emptyEntry) p) := by
  rw [mergeStep, updateAssoc_lookup_self]; rfl

theorem lookupE_mergeStep_other (m : List (String × MergeEntry)) (p : String × RawRow)
    (k : String) (h : k ≠ keyOf p.2) :
    lookupE (mergeStep m p) k = lookupE m k := by
  rw [mergeStep, updateAssoc_lookup_other _ _ _ _ h]

/-- Full characterisation of the merge fold: the entry found for a key is
determined by the pre-existing entry and the rows whose merge key equals it. -/
theorem lookupE_foldl_mergeStep (k : String) (rows : List (String × RawRow)) :
    ∀ m : List (String × MergeEntry),
      lookupE (rows.foldl mergeStep m) k =
        mergedAt (lookupE m k) (rows.filter (fun p => keyOf p.2 = k)) := by
  induction rows with
  | nil =>
    intro m
    cases h : lookupE m k <;> simp [mergedAt, addAll, h]
  | cons p rows ih =>
    intro m
    rw [List.foldl_cons, ih (mergeStep m p)]
    by_cases hk : keyOf p.2 = k
    · subst hk
      rw [lookupE_mergeStep_key]
      cases h : lookupE m (keyOf p.2) <;>
        simp [mergedAt, h, List.filter_cons, addAll]
    · have : k ≠ keyOf p.2 := fun hh => hk hh.symm
      rw [lookupE_mergeStep_other _ _ _ this]
      simp [List.filter_cons, hk]

/-- Characterisation of `mergeRows` lookups. -/
theorem lookupE_mergeRows (rows : List (String × RawRow)) (k : String) :
    lookupE (mergeRows rows) k =
      mergedAt none (rows.filter (fun p => keyOf p.2 = k)) := by
  rw [mergeRows, lookupE_foldl_mergeStep]; rfl

theorem addAll_files (l : List (String × RawRow)) :
    ∀ e : MergeEntry, (addAll e l).files = e.files ++ l.map contribOf := by
  induction l with
  | nil => intro e; simp [addAll]
  | cons p l ih =>
    intro e
    have : addAll e (p :: l) = addAll (stepEntry e p) l := rfl
    rw [this, ih]
    simp [stepEntry, addTo, contribOf]

theorem addAll_qty (l : List (String × RawRow)) :
    ∀ e : MergeEntry, (addAll e l).qty = e.qty + (l.map (fun p => qtyOf p.2)).sum := by
  induction l with
  | nil => intro e; simp [addAll]
  | cons p l ih =>
    intro e
    have : addAll e (p :: l) = addAll (stepEntry e p) l := rfl
    rw [this, ih]
    simp [stepEntry, addTo]
    ring

theorem totalOf_cons (p : String × MergeEntry) (m : List (String × MergeEntry)) :
    totalOf (p :: m) = p.2.qty + totalOf m := by
  simp [totalOf]

theorem totalOf_updateAssoc (m : List (String × MergeEntry)) (k : String)
    (file : String) (q : ℚ) (d v : String) :
    totalOf (updateAssoc m k (addTo file q d v)) = totalOf m + q := by
  induction m with
  | nil => simp [updateAssoc, totalOf, addTo, emptyEntry]
  | cons p rest ih =>
    by_cases hp : p.1 = k
    · simp [updateAssoc, hp, totalOf_cons, addTo, totalOf]
      ring
    · simp [updateAssoc, hp, totalOf_cons, ih]
      ring

theorem totalOf_foldl (rows : List (String × RawRow)) :
    ∀ m : List (String × MergeEntry),
      totalOf (rows.foldl mergeStep m) = totalOf m + (rows.map (fun p => qtyOf p.2)).sum := by
  induction rows with
  | nil => intro m; simp
  | cons p rows ih =>
    intro m
    rw [List.foldl_cons, ih, mergeStep, totalOf_updateAssoc]
    simp
    ring

/-! ## Keys of the merge map -/

theorem updateAssoc_keys_mem (m : List (String × MergeEntry)) (k : String)
    (f : MergeEntry → MergeEntry) (h : k ∈ m.map Prod.fst) :
    (updateAssoc m k f).map Prod.fst = m.map Prod.fst := by
  induction m with
  | nil => simp at h
  | cons p rest ih =>
    by_cases hp : p.1 = k
    · simp [updateAssoc, hp]
    · have hmem : k ∈ rest.map Prod.fst := by
        rw [List.map_cons] at h
        rcases List.mem_cons.mp h with h1 | h1
        · exact absurd h1.symm hp
        · exact h1
      simp [updateAssoc, hp, ih hmem]

theorem updateAssoc_keys_not_mem (m : List (String × MergeEntry)) (k : String)
    (f : MergeEntry → MergeEntry) (h : k ∉ m.map Prod.fst) :
    (updateAssoc m k f).map Prod.fst = m.map Prod.fst ++ [k] := by
  induction m with
  | nil => simp [updateAssoc]
  | cons p rest ih =>
    have h1 : ¬ (p.1 = k) := fun hh => h (by simp [hh])
    have h2 : k ∉ rest.map Prod.fst := fun hh => h (by simp [hh])
    simp [updateAssoc, h1, ih h2]

theorem firstDedupExcl_congr (l : List String) :
    ∀ s₁ s₂ : List String, (∀ x, x ∈ s₁ ↔ x ∈ s₂) →
      firstDedupExcl s₁ l = firstDedupExcl s₂ l := by
  induction l with
  | nil => intro s₁ s₂ _; rfl
  | cons x xs ih =>
    intro s₁ s₂ h
    by_cases hx : x ∈ s₁
    · simp [firstDedupExcl, hx, (h x).mp hx, ih _ _ h]
    · have hx₂ : x ∉ s₂ := fun hh => hx ((h x).mpr hh)
      simp only [firstDedupExcl, if_neg hx, if_neg hx₂]
      have : ∀ y, y ∈ x :: s₁ ↔ y ∈ x :: s₂ := by
        intro y; simp [List.mem_cons, h y]
      rw [ih _ _ this]

theorem foldl_mergeStep_keys (rows : List (String × RawRow)) :
    ∀ m : List (String × MergeEntry),
      (rows.foldl mergeStep m).map Prod.fst =
        m.map Prod.fst ++ firstDedupExcl (m.map Prod.fst) (rows.map (fun p => keyOf p.2)) := by
  induction rows with
  | nil => intro m; simp [firstDedupExcl]
  | cons p rows ih =>
    intro m
    rw [List.foldl_cons, ih (mergeStep m p)]
    by_cases hk : keyOf p.2 ∈ m.map Prod.fst
    · rw [show (mergeStep m p).map Prod.fst = m.map Prod.fst from
        updateAssoc_keys_mem _ _ _ hk]
      simp [firstDedupExcl, hk]
    · rw [show (mergeStep m p).map Prod.fst = m.map Prod.fst ++ [keyOf p.2] from
        updateAssoc_keys_not_mem _ _ _ hk]
      simp only [List.map_cons, firstDedupExcl, if_neg hk]
      rw [List.append_assoc]
      have : ∀ y, y ∈ m.map Prod.fst ++ [keyOf p.2] ↔ y ∈ keyOf p.2 :: m.map Prod.fst := by
        intro y; simp [List.mem_append, List.mem_cons, or_comm]
      rw [firstDedupExcl_congr _ _ _ this]
      rfl

theorem mergeRows_keys (rows : List (String × RawRow)) :
    (mergeRows rows).map Prod.fst = firstDedup (rows.map (fun p => keyOf p.2)) := by
  rw [mergeRows, foldl_mergeStep_keys]
  rfl

theorem firstDedupExcl_nodup (l : List String) :
    ∀ seen : List String,
      (firstDedupExcl seen l).Nodup ∧ ∀ x ∈ firstDedupExcl seen l, x ∉ seen := by
  induction l with
  | nil => intro seen; simp [firstDedupExcl]
  | cons x xs ih =>
    intro seen
    by_cases hx : x ∈ seen
    · simpa [firstDedupExcl, hx] using ih seen
    · obtain ⟨h1, h2⟩ := ih (x :: seen)
      constructor
      · simp only [firstDedupExcl, if_neg hx, List.nodup_cons]
        exact ⟨fun hmem => (h2 x hmem) (List.mem_cons_self x seen), h1⟩
      · intro y hy
        simp only [firstDedupExcl, if_neg hx, List.mem_cons] at hy
        rcases hy with rfl | hy
        · exact hx
        · exact fun hys => (h2 y hy) (List.mem_cons_of_mem _ hys)

theorem mergeRows_keys_nodup (rows : List (String × RawRow)) :
    ((mergeRows rows).map Prod.fst).Nodup := by
  rw [mergeRows_keys]
  exact (firstDedupExcl_nodup _ []).1

/-! ## Membership and lookups -/

theorem lookupE_mem (m : List (String × MergeEntry)) (k : String) (e : MergeEntry)
    (h : lookupE m k = some e) : (k, e) ∈ m := by
  induction m with
  | nil => simp [lookupE] at h
  | cons p rest ih =>
    by_cases hp : p.1 = k
    · rw [lookupE, if_pos hp] at h
      obtain rfl : p.2 = e := Option.some.inj h
      exact hp ▸ List.mem_cons_self p rest
    · rw [lookupE, if_neg hp] at h
      exact List.mem_cons_of_mem _ (ih h)

theorem mem_lookupE_of_nodup (m : List (String × MergeEntry)) (k : String) (e : MergeEntry)
    (hn : (m.map Prod.fst).Nodup) (h : (k, e) ∈ m) : lookupE m k = some e := by
  induction m with
  | nil => simp at h
  | cons p rest ih =>
    rcases List.mem_cons.mp h with rfl | hmem
    · rw [lookupE, if_pos rfl]
    · have hk : ¬ (p.1 = k) := by
        intro hh
        have : k ∈ rest.map Prod.fst := List.mem_map.mpr ⟨(k, e), hmem, rfl⟩
        rw [List.map_cons, List.nodup_cons, hh] at hn
        exact hn.1 this
      rw [lookupE, if_neg hk]
      exact ih (by rw [List.map_cons, List.nodup_cons] at hn; exact hn.2) hmem

theorem lookupE_mergeRows_isSome (rows : List (String × RawRow)) (k : String) :
    (∃ e, lookupE (mergeRows rows) k = some e) ↔ k ∈ rows.map (fun p => keyOf p.2) := by
  rw [lookupE_mergeRows]
  by_cases h : rows.filter (fun p => keyOf p.2 = k) = []
  · simp only [mergedAt, h, if_pos rfl]
    constructor
    · rintro ⟨e, he⟩; cases he
    · intro hmem
      obtain ⟨p, hp, hkey⟩ := List.mem_map.mp hmem
      have : p ∈ rows.filter (fun p => keyOf p.2 = k) :=
        List.mem_filter.mpr ⟨hp, by simp [hkey]⟩
      rw [h] at this
      cases this
  · simp only [mergedAt, if_neg h]
    constructor
    · intro _
      obtain ⟨p, hp⟩ := List.exists_mem_of_ne_nil _ h
      have := List.mem_filter.mp hp
      exact List.mem_map.mpr ⟨p, this.1, by simpa using this.2⟩
    · intro _; exact ⟨_, rfl⟩

/-! ## The per-entry invariant -/

theorem osInsert_nodup (s : String) (l : List String) (h : l.Nodup) :
    (osInsert s l).Nodup := by
  unfold osInsert
  split
  · next hc => simp [List.Nodup.append, h, hc.2, List.disjoint_singleton]
  · exact h

theorem osInsert_empty_not_mem (s : String) (l : List String) (h : "" ∉ l) :
    "" ∉ osInsert s l := by
  unfold osInsert
  split
  · next hc =>
    intro hmem
    rcases List.mem_append.mp hmem with h1 | h1
    · exact h h1
    · exact hc.1 (List.mem_singleton.mp h1).symm
  · exact h

theorem emptyEntry_inv : EntryInv emptyEntry := by
  simp [EntryInv, emptyEntry]

theorem stepEntry_inv (e : MergeEntry) (p : String × RawRow) (h : EntryInv e) :
    EntryInv (stepEntry e p) := by
  obtain ⟨hq, hd, hde, hv, hve⟩ := h
  refine ⟨?_, osInsert_nodup _ _ hd, osInsert_empty_not_mem _ _ hde,
    osInsert_nodup _ _ hv, osInsert_empty_not_mem _ _ hve⟩
  simp [stepEntry, addTo, hq]

theorem addAll_inv (l : List (String × RawRow)) :
    ∀ e : MergeEntry, EntryInv e → EntryInv (addAll e l) := by
  induction l with
  | nil => intro e h; exact h
  | cons p l ih =>
    intro e h
    exact ih (stepEntry e p) (stepEntry_inv e p h)

/-! ## Representative description/value selection -/

theorem osInsert_cons (s d : String) (ds : List String) :
    ∃ t, osInsert s (d :: ds) = d :: t := by
  unfold osInsert
  split
  · exact ⟨ds ++ [s], by simp⟩
  · exact ⟨ds, rfl⟩

theorem osInsert_fold_head (g : String × RawRow → String) (l : List (String × RawRow)) :
    ∀ acc : List String,
      (l.foldl (fun a p => osInsert (g p) a) acc).headD "" =
        match acc with
        | [] => ((l.map g).filter (fun d => d ≠ "")).headD ""
        | d :: _ => d := by
  induction l with
  | nil =>
    intro acc
    cases acc <;> simp
  | cons p l ih =>
    intro acc
    rw [List.foldl_cons]
    cases acc with
    | cons d ds =>
      obtain ⟨t, ht⟩ := osInsert_cons (g p) d ds
      rw [ih (osInsert (g p) (d :: ds)), ht]
    | nil =>
      by_cases hg : g p = ""
      · have : osInsert (g p) [] = [] := by simp [osInsert, hg]
        rw [this, ih []]
        simp [List.filter_cons, hg]
      · have : osInsert (g p) [] = [g p] := by simp [osInsert, hg]
        rw [this, ih [g p]]
        simp [List.filter_cons, hg]

theorem addAll_descriptions (l : List (String × RawRow)) :
    ∀ e : MergeEntry,
      (addAll e l).descriptions =
        l.foldl (fun a p => osInsert (descOf p.2) a) e.descriptions := by
  induction l with
  | nil => intro e; rfl
  | cons p l ih =>
    intro e
    rw [show addAll e (p :: l) = addAll (stepEntry e p) l from rfl, ih]
    rfl

theorem addAll_values (l : List (String × RawRow)) :
    ∀ e : MergeEntry,
      (addAll e l).values =
        l.foldl (fun a p => osInsert (valOf p.2) a) e.values := by
  induction l with
  | nil => intro e; rfl
  | cons p l ih =>
    intro e
    rw [show addAll e (p :: l) = addAll (stepEntry e p) l from rfl, ih]
    rfl

/-! ## Substring lemmas for the log lines -/

theorem sContains_self (s : String) : sContains s s := ⟨[], [], by simp⟩

theorem sContains_append_left (u t s : String) (h : sContains t s) : sContains (u ++ t) s := by
  obtain ⟨a, b, hab⟩ := h
  exact ⟨u.data ++ a, b, by simp [String.data_append, hab]⟩

theorem sContains_append_right (t u s : String) (h : sContains t s) : sContains (t ++ u) s := by
  obtain ⟨a, b, hab⟩ := h
  exact ⟨a, b ++ u.data, by simp [String.data_append, hab]⟩

theorem sContains_trans (a b c : String) (h1 : sContains a b) (h2 : sContains b c) :
    sContains a c := by
  obtain ⟨x, y, hxy⟩ := h1
  obtain ⟨u, v, huv⟩ := h2
  exact ⟨x ++ u, v ++ y, by simp [hxy, huv]⟩

theorem sContains_mem (big small : String) (h : sContains big small) (c : Char)
    (hc : c ∈ small.data) : c ∈ big.data := by
  obtain ⟨a, b, hab⟩ := h
  rw [hab]
  simp [List.mem_append, hc]

theorem strJoin_sContains (sep : String) (l : List String) (x : String) (h : x ∈ l) :
    sContains (strJoin sep l) x := by
  induction l with
  | nil => cases h
  | cons y ys ih =>
    cases ys with
    | nil =>
      obtain rfl := List.mem_singleton.mp h
      exact sContains_self x
    | cons z zs =>
      rcases List.mem_cons.mp h with rfl | hmem
      · exact sContains_append_right _ _ _ (sContains_append_right _ _ _ (sContains_self x))
      · exact sContains_append_left _ _ _ (ih hmem)

theorem contribStr_contains_file (c : Contribution) :
    sContains (contribStr c) (pyShort c.file 10) := by
  unfold contribStr
  repeat
    first
      | exact sContains_self _
      | apply sContains_append_right

theorem logLine_contains_file (k : String) (e : MergeEntry) (c : Contribution)
    (hc : c ∈ e.files) : sContains (logLine k e) (pyShort c.file 10) := by
  have h1 : sContains (strJoin ", " (e.files.map contribStr)) (contribStr c) :=
    strJoin_sContains _ _ _ (List.mem_map.mpr ⟨c, hc, rfl⟩)
  have h2 : sContains (logLine k e) (strJoin ", " (e.files.map contribStr)) := by
    unfold logLine
    apply sContains_append_right
    apply sContains_append_left
    exact sContains_self _
  exact sContains_trans _ _ _ (sContains_trans _ _ _ h2 h1) (contribStr_contains_file c)

theorem logLines_eq (m : List (String × MergeEntry)) :
    logLines m = (m.filter (fun p => 2 ≤ p.2.files.length)).map (fun p => logLine p.1 p.2) := by
  induction m with
  | nil => rfl
  | cons p rest ih =>
    by_cases h : p.2.files.length ≤ 1
    · have h2 : ¬ (2 ≤ p.2.files.length) := by omega
      simp [logLines, List.filterMap_cons, List.filter_cons, h, h2, ← ih]
    · have h2 : 2 ≤ p.2.files.length := by omega
      simp [logLines, List.filterMap_cons, List.filter_cons, h, h2, ← ih]

theorem outputRows_lcsc (m : List (String × MergeEntry)) :
    (outputRows m).map (fun r => r.lcsc) = m.map Prod.fst := by
  simp [outputRows, outputRow]

/-! ## The claims -/

/-- Claim C1, counterexample: with a single input row of raw quantity
`"1.0000000001"`, the emitted `Qty` text is `"1"` (whose numeric value,
read back with the program's own parser, is `1`), while the sum of the
normalized input quantities is `1.0000000001 ≠ 1`; so the sum of the
emitted `Qty` values differs from the sum of the normalized input
quantities. -/
theorem c1_counterexample :
    ((outputRows (mergeRows ce1Rows)).map (fun r => parse_qty (some r.qtyText))).sum = 1 ∧
    (ce1Rows.map (fun p => qtyOf p.2)).sum = 10000000001 / 10000000000 ∧
    (10000000001 / 10000000000 : ℚ) ≠ 1 := by
  refine ⟨by decide, by decide, by decide⟩

/-- Claim C1 (amended): for every set of input rows, the sum of the
per-key running totals — the values from which the output `Qty` texts are
formatted — equals the sum of the normalized quantities of all input rows;
the emitted text itself may replace a total lying within `1e-9` of its
truncation by the truncated integer. -/
theorem c1_conservation (rows : List (String × RawRow)) :
    totalOf (mergeRows rows) = (rows.map (fun p => qtyOf p.2)).sum := by
  rw [mergeRows, totalOf_foldl]
  simp [totalOf]

/-- Claim C2: grouping is a strict partition — the merge keys are pairwise
distinct, a key owns an entry iff some input row has that trimmed LCSC
(the empty string being a valid key), and the contributor list of the entry
for a key consists of exactly the rows whose trimmed LCSC equals that key,
in input order.  Hence every row is aggregated into exactly one entry, and
two rows land in the same entry iff their trimmed LCSC strings are equal. -/
theorem c2_partition (rows : List (String × RawRow)) :
    ((mergeRows rows).map Prod.fst).Nodup ∧
    (∀ k, (∃ e, lookupE (mergeRows rows) k = some e) ↔
      k ∈ rows.map (fun p => keyOf p.2)) ∧
    (∀ k e, lookupE (mergeRows rows) k = some e →
      e.files = (rows.filter (fun p => keyOf p.2 = k)).map contribOf) := by
  refine ⟨mergeRows_keys_nodup rows, fun k => lookupE_mergeRows_isSome rows k, ?_⟩
  intro k e h
  rw [lookupE_mergeRows] at h
  by_cases hf : rows.filter (fun p => keyOf p.2 = k) = []
  · simp [mergedAt, hf] at h
  · simp only [mergedAt, if_neg hf, Option.some.injEq] at h
    rw [← h, addAll_files]
    simp [emptyEntry]

theorem c2_witness :
    lookupE (mergeRows exRows) "C1" = some exEntry ∧
    exEntry.files = (exRows.filter (fun p => keyOf p.2 = "C1")).map contribOf :=
  ⟨by decide, (c2_partition exRows).2.2 "C1" exEntry (by decide)⟩

/-- Claim C3: quantity normalization — after stripping surrounding
whitespace, commas are removed anywhere in the string and a decimal parse
is attempted, with empty/missing input and parse failures yielding `0.0`;
in particular `"1,234" → 1234.0`, `"" → 0.0`, `"abc" → 0.0`,
`"12.5" → 12.5`, and the function is total (never raises). -/
theorem c3_parse_qty :
    parse_qty none = 0 ∧ parse_qty (some "") = 0 ∧ parse_qty (some "   ") = 0 ∧
    parse_qty (some "1,234") = 1234 ∧ parse_qty (some "abc") = 0 ∧
    parse_qty (some "12.5") = 25 / 2 ∧ parse_qty (some " 1,234.5 ") = 2469 / 2 ∧
    parse_qty (some "1,,2") = 12 ∧ parse_qty (some "12.5.6") = 0 := by
  refine ⟨by decide, by decide, by decide, by decide, by decide, by decide, by decide,
    by decide, by decide⟩

/-- Claim C4, counterexample: the total `0.9999999999` lies within `1e-9`
of the integer `1`, yet the emitted text is `"0.9999999999"` — the decimal
form, not the integer form — because the code compares against `int(total)`
(truncation toward zero, here `0`), not against the nearest integer. -/
theorem c4_counterexample :
    |(9999999999 : ℚ) / 10000000000 - ((1 : ℤ) : ℚ)| < 1 / 1000000000 ∧
    fmtQty (9999999999 / 10000000000) = "0.9999999999" ∧
    fmtQty (9999999999 / 10000000000) ≠ intToStr 1 := by
  refine ⟨by decide, by decide, by decide⟩

/-- Claim C4 (amended): if the total is within `1e-9` of its truncation
toward zero (`int(total)`), the emitted `Qty` text is that truncated
integer's decimal form with no decimal point; otherwise it is the default
decimal textual form of the total.  Total `5.0` is emitted as `"5"` and
`5.3` as `"5.3"`. -/
theorem c4_formatting (q : ℚ) :
    (|q - (qtrunc q : ℚ)| < 1 / 1000000000 → fmtQty q = intToStr (qtrunc q)) ∧
    (1 / 1000000000 ≤ |q - (qtrunc q : ℚ)| → fmtQty q = pyStr q) ∧
    fmtQty 5 = "5" ∧ fmtQty (53 / 10) = "5.3" := by
  refine ⟨?_, ?_, by decide, by decide⟩
  · intro h; rw [fmtQty, if_pos h]
  · intro h; rw [fmtQty, if_neg (not_lt.mpr h)]

theorem c4_witness :
    fmtQty (10000000001 / 10000000000) = intToStr (qtrunc (10000000001 / 10000000000)) :=
  (c4_formatting (10000000001 / 10000000000)).1 (by decide)

/-- Claim C5: for every merge entry reachable after processing any stream
of input rows (hence after every row-processing step and at finalization),
the running total equals the sum of the contributors' quantities, and the
descriptions and values lists contain no duplicates and no empty strings. -/
theorem c5_invariant (rows : List (String × RawRow)) (k : String) (e : MergeEntry)
    (h : lookupE (mergeRows rows) k = some e) : EntryInv e := by
  rw [lookupE_mergeRows] at h
  by_cases hf : rows.filter (fun p => keyOf p.2 = k) = []
  · simp [mergedAt, hf] at h
  · simp only [mergedAt, if_neg hf, Option.some.injEq] at h
    rw [← h]
    exact addAll_inv _ _ emptyEntry_inv

theorem c5_witness : EntryInv exEntry :=
  c5_invariant exRows "C1" exEntry (by decide)

/-- Claim C6, counterexample: two rows of the same key contributed by the
file `abcdefghQRS` produce exactly one log line, but that line does not
contain the contributor's file name — the name is inserted truncated to
`abcdefgh..`, so the character `Q` of the name appears nowhere in the
line. -/
theorem c6_counterexample :
    (logLines (mergeRows ce6Rows)).length = 1 ∧
    (mergeRows ce6Rows).map (fun p => p.2.files.length) = [2] ∧
    ¬ sContains ((logLines (mergeRows ce6Rows)).headD "") "abcdefghQRS" := by
  refine ⟨by decide, by decide, ?_⟩
  intro h
  have hQ := sContains_mem _ _ h 'Q' (by decide)
  revert hQ
  decide

/-- Claim C6 (amended): the diagnostic lines are exactly one line per merge
key with two or more contributing rows, in key order (keys with at most one
contributor produce none), and each key's line contains every contributor's
file name as shortened for display (`_short`, i.e. the full name when it
has at most 10 characters). -/
theorem c6_collision_logging (rows : List (String × RawRow)) :
    logLines (mergeRows rows) =
      ((mergeRows rows).filter (fun p => 2 ≤ p.2.files.length)).map
        (fun p => logLine p.1 p.2) ∧
    ∀ p ∈ mergeRows rows, ∀ c ∈ p.2.files,
      sContains (logLine p.1 p.2) (pyShort c.file 10) :=
  ⟨logLines_eq _, fun p _ c hc => logLine_contains_file p.1 p.2 c hc⟩

theorem c6_witness :
    sContains (logLine "C1" exEntry) (pyShort "a.csv" 10) :=
  (c6_collision_logging exRows).2 ("C1", exEntry) (by decide)
    ⟨"a.csv", 2, "Resistor", "10k"⟩ (by decide)

/-- Claim C7, counterexample: shortening the 11-character string
`abcdefghijk` yields `abcdefgh..` — the appended truncation marker is
`".."`, not `".. "`; the claimed marker (with its trailing space) occurs
nowhere in the result, which contains no space at all. -/
theorem c7_counterexample :
    pyShort "abcdefghijk" 10 = "abcdefgh.." ∧
    ¬ sContains (pyShort "abcdefghijk" 10) ".. " := by
  refine ⟨by decide, ?_⟩
  intro h
  have hs := sContains_mem _ _ h ' ' (by decide)
  revert hs
  decide

/-- Claim C7 (amended): every textual field inserted into a collision log
line is passed through `_short` with display limit 10: fields of at most 10
characters are inserted unchanged, longer fields are cut to their first 8
characters with the marker `".."` appended, for a fixed display length of
exactly 10 characters. -/
theorem c7_short (s : String) :
    (s.data.length ≤ 10 → pyShort s 10 = s) ∧
    (10 < s.data.length →
      (pyShort s 10).data = s.data.take 8 ++ ['.', '.'] ∧
      (pyShort s 10).data.length = 10) := by
  constructor
  · intro h; rw [pyShort, if_pos h]
  · intro h
    have h1 : ¬ s.data.length ≤ 10 := by omega
    have h2 : ¬ ((10 : ℕ) ≤ 2) := by norm_num
    constructor
    · rw [pyShort, if_neg h1, if_neg h2]
    · rw [pyShort, if_neg h1, if_neg h2]
      show (s.data.take 8 ++ ['.', '.']).length = 10
      rw [List.length_append, List.length_take]
      simp only [List.length_cons, List.length_nil]
      omega

theorem c7_witness :
    (pyShort "abcdefghijk" 10).data = "abcdefghijk".data.take 8 ++ ['.', '.'] ∧
    (pyShort "abcdefghijk" 10).data.length = 10 :=
  (c7_short "abcdefghijk").2 (by decide)

/-- Claim C8, counterexample: a directory holding a single unreadable file
produces zero output data rows (the failure is swallowed) and an empty log
— contrary to the claim, the read failure is not logged: `read_csv`'s
`except Exception: return []` emits nothing, and the collision pass logs
nothing either. -/
theorem c8_counterexample :
    (merge_and_write [("bad.csv", Except.error "io error")]).1 = [] ∧
    (merge_and_write [("bad.csv", Except.error "io error")]).2 = [] := by
  refine ⟨by decide, by decide⟩

/-- Claim C8 (amended): a file whose open/parse raises contributes zero
rows instead of raising, and the merge of the remaining files proceeds
exactly as if the failing file were empty; the failure is silently
swallowed, not logged. -/
theorem c8_read_failure (name msg : String)
    (files : List (String × Except String (List (List (String × Option String))))) :
    read_csv (Except.error msg) = [] ∧
    read_all ((name, Except.error msg) :: files) = (name, []) :: read_all files ∧
    merge_and_write ((name, Except.error msg) :: files) = merge_and_write files := by
  refine ⟨rfl, by simp [read_all, read_csv], ?_⟩
  simp [merge_and_write, read_all, read_csv, allRows]

/-- Claim C9: exactly one output row is written per merge key, in the order
keys were first encountered; each row's Description and Value are the first
non-empty trimmed description/value among the key's contributing rows (in
input order), or the empty string when none was ever recorded, and its LCSC
is the key itself. -/
theorem c9_output (rows : List (String × RawRow)) :
    (outputRows (mergeRows rows)).map (fun r => r.lcsc) =
      firstDedup (rows.map (fun p => keyOf p.2)) ∧
    ∀ k e, lookupE (mergeRows rows) k = some e →
      outputRow k e =
        ⟨(((rows.filter (fun p => keyOf p.2 = k)).map
            (fun p => descOf p.2)).filter (fun d => d ≠ "")).headD "",
          fmtQty e.qty,
          (((rows.filter (fun p => keyOf p.2 = k)).map
            (fun p => valOf p.2)).filter (fun v => v ≠ "")).headD "",
          k⟩ := by
  refine ⟨by rw [outputRows_lcsc, mergeRows_keys], ?_⟩
  intro k e h
  rw [lookupE_mergeRows] at h
  by_cases hf : rows.filter (fun p => keyOf p.2 = k) = []
  · simp [mergedAt, hf] at h
  · simp only [mergedAt, if_neg hf, Option.some.injEq] at h
    have hd : e.descriptions.headD "" =
        (((rows.filter (fun p => keyOf p.2 = k)).map
          (fun p => descOf p.2)).filter (fun d => d ≠ "")).headD "" := by
      rw [← h, addAll_descriptions]
      exact osInsert_fold_head (fun p => descOf p.2) _ []
    have hv : e.values.headD "" =
        (((rows.filter (fun p => keyOf p.2 = k)).map
          (fun p => valOf p.2)).filter (fun v => v ≠ "")).headD "" := by
      rw [← h, addAll_values]
      exact osInsert_fold_head (fun p => valOf p.2) _ []
    rw [outputRow, hd, hv]

theorem c9_witness :
    outputRow "C1" exEntry = ⟨"Resistor", "5", "10k", "C1"⟩ := by
  rw [(c9_output exRows).2 "C1" exEntry (by decide)]
  decide

/-- Claim C10: degenerate rows never break aggregation — a row whose four
fields are all absent/`None` yields the empty merge key, quantity `0`, and
empty description and value; `filter_row` fills absent columns with the
empty string; and merging any row behaves exactly as merging the row with
its `None` fields replaced by empty strings. -/
theorem c10_degenerate (m : List (String × MergeEntry)) (f : String) (r : RawRow) :
    keyOf ⟨none, none, none, none⟩ = "" ∧ qtyOf ⟨none, none, none, none⟩ = 0 ∧
    descOf ⟨none, none, none, none⟩ = "" ∧ valOf ⟨none, none, none, none⟩ = "" ∧
    filter_row [] = ⟨some "", some "", some "", some ""⟩ ∧
    mergeStep m (f, r) = mergeStep m (f, fillRow r) := by
  refine ⟨by decide, by decide, by decide, by decide, rfl, ?_⟩
  have hk : keyOf (fillRow r) = keyOf r := by
    simp [keyOf, fillRow, getOrEmpty]
  have hq : qtyOf (fillRow r) = qtyOf r := by
    cases hr : r.qty with
    | none =>
      simp only [qtyOf, fillRow, getOrEmpty, hr, Option.getD]
      decide
    | some s => simp [qtyOf, fillRow, getOrEmpty, hr]
  have hd : descOf (fillRow r) = descOf r := by
    simp [descOf, fillRow, getOrEmpty]
  have hv : valOf (fillRow r) = valOf r := by
    simp [valOf, fillRow, getOrEmpty]
  simp [mergeStep, hk, hq, hd, hv]

end

end MergeBom
